import Mathlib

/-
  Verification development for the FDC3-over-interop-bus routing engine
  (Fdc3Impl / Fdc3Bus and the Utils validators).

  The engine is shallowly embedded: JavaScript runtime values are modelled by
  the inductive `JVal`; each external interop-platform capability
  (discoverMethods / invoke) is modelled as a pure oracle carried inside the
  `Platform` value; every asynchronous operation of the engine becomes a pure
  function returning its outcome (`Except String` mirrors promise
  resolution/rejection, the `String` being the JS error message) together with
  the list of remote capability calls it issued, in order.
-/

namespace Fdc3

/-- Model of a JavaScript runtime value (also covers the JSON subset used for
contexts).  Object fields are an ordered association list, matching JS object
key insertion order. -/
inductive JVal where
  | undefined
  | jnull
  | jbool (b : Bool)
  | jnum (n : Int)
  | jstr (s : String)
  | jarr (elems : List JVal)
  | jobj (fields : List (String × JVal))
  | jfun
  deriving Repr

mutual

/-- Structural equality of JS values (models strict equality on primitives and
is used to model deep/serialized comparison of structured values). -/
def beqJVal : JVal → JVal → Bool
  | .undefined, .undefined => true
  | .jnull, .jnull => true
  | .jbool a, .jbool b => a == b
  | .jnum a, .jnum b => a == b
  | .jstr a, .jstr b => a == b
  | .jarr a, .jarr b => beqJValList a b
  | .jobj a, .jobj b => beqJValFields a b
  | .jfun, .jfun => true
  | _, _ => false

def beqJValList : List JVal → List JVal → Bool
  | [], [] => true
  | a :: as_, b :: bs => beqJVal a b && beqJValList as_ bs
  | _, _ => false

def beqJValFields : List (String × JVal) → List (String × JVal) → Bool
  | [], [] => true
  | (ka, va) :: as_, (kb, vb) :: bs => ka == kb && beqJVal va vb && beqJValFields as_ bs
  | _, _ => false

end

instance : BEq JVal := ⟨beqJVal⟩

/-- JavaScript truthiness of a value. -/
def truthy : JVal → Bool
  | .undefined => false
  | .jnull => false
  | .jbool b => b
  | .jnum n => n != 0
  | .jstr s => s != ""
  | .jarr _ => true
  | .jobj _ => true
  | .jfun => true

/-- The JavaScript `typeof` operator. -/
def typeOf : JVal → String
  | .undefined => "undefined"
  | .jnull => "object"
  | .jbool _ => "boolean"
  | .jnum _ => "number"
  | .jstr _ => "string"
  | .jarr _ => "object"
  | .jobj _ => "object"
  | .jfun => "function"

/-- Property access `v[k]`: yields the field's value on an object that has the
key, `undefined` otherwise (JS returns `undefined` both for a missing key and
for property access on non-objects we model). -/
def getField (v : JVal) (k : String) : JVal :=
  match v with
  | .jobj fields =>
    match fields.find? (fun kv => kv.1 == k) with
    | some kv => kv.2
    | none => .undefined
  | _ => .undefined

/-- Escape one character as inside a JSON string literal (quote and backslash;
the engine only ever compares serializations for equality, so the remaining
control-character escapes do not affect any result and are left verbatim). -/
def jsEscapeChar (c : Char) : String :=
  if c = '"' then "\\\"" else if c = '\\' then "\\\\" else String.singleton c

/-- A JSON string literal. -/
def jsQuote (s : String) : String :=
  "\"" ++ String.join (s.toList.map jsEscapeChar) ++ "\""

mutual

/-- Model of `JSON.stringify`: `none` when the argument is not serializable to
a string (JS returns the value `undefined` for `undefined` and functions),
otherwise the serialized text.  Key order of objects is preserved, exactly as
in JavaScript. -/
def stringify : JVal → Option String
  | .undefined => none
  | .jfun => none
  | .jnull => some "null"
  | .jbool b => some (if b then "true" else "false")
  | .jnum n => some (toString n)
  | .jstr s => some (jsQuote s)
  | .jarr xs => some ("[" ++ String.intercalate "," (stringifyElems xs) ++ "]")
  | .jobj kvs => some ("\x7b" ++ String.intercalate "," (stringifyFields kvs) ++ "\x7d")

/-- Array elements: non-serializable entries become `null`, as in JS. -/
def stringifyElems : List JVal → List String
  | [] => []
  | x :: xs => (stringify x).getD "null" :: stringifyElems xs

/-- Object fields: entries with non-serializable values are dropped, as in JS. -/
def stringifyFields : List (String × JVal) → List String
  | [] => []
  | (k, v) :: kvs =>
    match stringify v with
    | none => stringifyFields kvs
    | some sv => (jsQuote k ++ ":" ++ sv) :: stringifyFields kvs

end

/-! ## Data model

`interfaces/client-api.ts` is not among the provided sources; the shapes of
`Method`, `Platform` and `InteropPlatform` below are modelled from the spec's
data model (§3) and from how `impl.ts` consumes them.  Connection metadata
(`version`, `online`, `connectionStatus`, `config`) plays no role in any
routing decision and is omitted from `Platform`. -/

/-- Modelled from the spec: the peer descriptor attached to a discovered
method (`peer: \x7bapplicationName\x7d`). -/
structure Peer where
  applicationName : String
  deriving Repr

/-- Modelled from the spec: one entry of a method's declared-intents list
(`\x7bname, context\x7d`). -/
structure IntentDecl where
  name : String
  context : JVal
  deriving Repr

/-- Modelled from the spec: a method discovered on a platform
(`\x7bname, intent, peer\x7d`). -/
structure Method where
  name : String
  intent : List IntentDecl
  peer : Peer
  deriving Repr

/-- The payload a successful `invoke` resolves with (`\x7bresult: any\x7d`). -/
structure InvokeResult where
  result : JVal
  deriving Repr

/-- `invoke` accepts either a method name or a discovered method object. -/
inductive MethodRef where
  | byName (s : String)
  | byMethod (m : Method)
  deriving Repr

/-- Modelled from the spec: the external interop capability handle of one
connected platform.  `discoverMethods` and `invoke` are oracles: a fixed
outcome for discovery and an outcome per invocation target/arguments
(`.error` models promise rejection with the given message). -/
structure PlatformApi where
  discoverMethods : Except String (List Method)
  invoke : MethodRef → JVal → Except String InvokeResult

/-- A connected platform handle as consumed by the routing engine. -/
structure Platform where
  name : String
  platformApi : PlatformApi

/-- One remote capability call issued by the engine, in issue order. -/
inductive RemoteCall where
  | discover (platformName : String)
  | invoke (platformName : String) (target : MethodRef) (args : JVal)
  | register (platformName : String) (methodName : String)
  | onMethodRegistered (platformName : String)
  deriving Repr

/-- `AppMetadata` from `interfaces/interface.ts`. -/
structure AppMetadata where
  name : String
  deriving Repr

/-- `IntentMetadata` from `interfaces/interface.ts`. -/
structure IntentMetadata where
  name : String
  displayName : String
  deriving Repr

/-- `AppIntent` from `interfaces/interface.ts`. -/
structure AppIntent where
  intent : IntentMetadata
  apps : List AppMetadata
  deriving Repr

/-! ## findIntent -/

/-- The context test of `Fdc3Impl.findIntent`:
`!context || JSON.stringify(context) === JSON.stringify(methodIntent.context)`. -/
def intentContextMatches (context : JVal) (declContext : JVal) : Bool :=
  !truthy context || stringify context == stringify declContext

/-- The matches one discovered method contributes in `findIntent`: one
`AppMetadata` per declared intent entry whose name equals `intent` and whose
declared context passes the context test (the source first guards on
`method.intent && method.intent.length > 0`). -/
def methodMatches (intent : String) (context : JVal) (m : Method) : List AppMetadata :=
  if m.intent.length > 0 then
    (m.intent.filter (fun mi => mi.name == intent && intentContextMatches context mi.context)).map
      (fun _ => ⟨m.peer.applicationName⟩)
  else []

/-- The platform loop of `Fdc3Impl.findIntent`: discovery on each platform in
order (a rejected discovery rejects the whole call), collecting the `apps`
entries in platform-then-method-then-intent order. -/
def findIntentLoop (intent : String) (context : JVal) :
    List Platform → Except String (List AppMetadata) × List RemoteCall
  | [] => (.ok [], [])
  | p :: rest =>
    match p.platformApi.discoverMethods with
    | .error e => (.error e, [.discover p.name])
    | .ok methods =>
      let (r, tr) := findIntentLoop intent context rest
      (r.map (fun apps => methods.flatMap (methodMatches intent context) ++ apps),
       .discover p.name :: tr)

/-- `Fdc3Impl.findIntent` (after argument validation): a single `AppIntent`
whose metadata repeats the requested intent name and whose `apps` list is the
collected matches. -/
def findIntent (intent : String) (context : JVal) (platforms : List Platform) :
    Except String AppIntent × List RemoteCall :=
  let (r, tr) := findIntentLoop intent context platforms
  (r.map (fun apps => ⟨⟨intent, intent⟩, apps⟩), tr)

/-! ## findIntentsByContext -/

/-- The aggregation step of `Fdc3Impl.findIntentsByContext` for one matching
intent entry: `appIntents.find(e => e.intent.name === mi.name)` followed by
either `intent.apps.push(...)` on the found entry or pushing a fresh
`AppIntent` at the end. -/
def pushApp : List AppIntent → String → String → List AppIntent
  | [], intentName, appName => [⟨⟨intentName, intentName⟩, [⟨appName⟩]⟩]
  | e :: rest, intentName, appName =>
    if e.intent.name == intentName then
      ⟨e.intent, e.apps ++ [⟨appName⟩]⟩ :: rest
    else
      e :: pushApp rest intentName appName

/-- Processing of one discovered method in `findIntentsByContext`: each
declared intent entry whose serialized context equals the serialized supplied
context is aggregated (the source first guards on a non-empty intent list). -/
def fibcStep (context : JVal) (acc : List AppIntent) (m : Method) : List AppIntent :=
  if m.intent.length > 0 then
    m.intent.foldl
      (fun acc2 mi =>
        if stringify mi.context == stringify context then
          pushApp acc2 mi.name m.peer.applicationName
        else acc2)
      acc
  else acc

/-- The platform loop of `Fdc3Impl.findIntentsByContext` (a rejected discovery
rejects the whole call). -/
def findIntentsByContextLoop (context : JVal) :
    List Platform → List AppIntent → Except String (List AppIntent) × List RemoteCall
  | [], acc => (.ok acc, [])
  | p :: rest, acc =>
    match p.platformApi.discoverMethods with
    | .error e => (.error e, [.discover p.name])
    | .ok methods =>
      let (r, tr) := findIntentsByContextLoop context rest (methods.foldl (fibcStep context) acc)
      (r, .discover p.name :: tr)

/-- `Fdc3Impl.findIntentsByContext` (after argument validation). -/
def findIntentsByContext (context : JVal) (platforms : List Platform) :
    Except String (List AppIntent) × List RemoteCall :=
  findIntentsByContextLoop context platforms []

/-! ## raiseIntent -/

/-- The filter of `Fdc3Impl.raiseIntent`: a method is kept when some declared
intent entry has the requested name and, when a (truthy) target is given, the
method's peer application name equals the target.  The source's callback
returns the method object (truthy) on a hit and falls through to `undefined`
otherwise. -/
def raiseIntentMatches (intent : String) (target : Option String) (m : Method) : Bool :=
  m.intent.length > 0 &&
    m.intent.any (fun mi =>
      mi.name == intent &&
        (match target with
         | some t => m.peer.applicationName == t
         | none => true))

/-- `Fdc3Impl.raiseIntent` (after argument validation).  The `for` loop of the
source exits on every path of its first iteration (throw on zero matches,
throw on several, return on exactly one), so later platforms are never
reached; an exhausted loop (empty platform list) falls off the function and
resolves with `undefined`. -/
def raiseIntentRun (intent : String) (context : JVal) (target : Option String) :
    List Platform → Except String JVal × List RemoteCall
  | [] => (.ok .undefined, [])
  | p :: _rest =>
    match p.platformApi.discoverMethods with
    | .error e => (.error e, [.discover p.name])
    | .ok methods =>
      match methods.filter (raiseIntentMatches intent target) with
      | [] =>
        (.error ("There is no method with intent \"" ++ intent ++ "\""), [.discover p.name])
      | [m] =>
        (match p.platformApi.invoke (.byMethod m) context with
         | .error e => (.error e, [.discover p.name, .invoke p.name (.byMethod m) context])
         | .ok r => (.ok r.result, [.discover p.name, .invoke p.name (.byMethod m) context]))
      | _ :: _ :: _ =>
        (.error ("There are multiple applications with method with intent \"" ++ intent ++ "\""),
         [.discover p.name])

/-! ## broadcast -/

/-- One successful context delivery: which platform's method was invoked. -/
structure Delivery where
  platform : String
  methodName : String
  deriving Repr

/-- The invocation loop inside `broadcast`'s per-platform `try` block: invoke
each context-listener method in order; an invocation rejection aborts the rest
of this platform's loop and is reported as the swallowed error. -/
def invokeContextListeners (p : Platform) (context : JVal) :
    List Method → List Delivery × Option String
  | [] => ([], none)
  | m :: rest =>
    match p.platformApi.invoke (.byMethod m) context with
    | .error e => ([], some e)
    | .ok _ =>
      let (ds, err) := invokeContextListeners p context rest
      (⟨p.name, m.name⟩ :: ds, err)

/-- One platform's work in `broadcast`: discover methods, filter to the
platform's canonical `Fdc3.<platform>.ContextListener` name, invoke each.
The second component is the error the surrounding `catch` swallows, if any. -/
def broadcastPlatform (p : Platform) (context : JVal) : List Delivery × Option String :=
  match p.platformApi.discoverMethods with
  | .error e => ([], some e)
  | .ok methods =>
    invokeContextListeners p context
      (methods.filter (fun m => m.name == ("Fdc3." ++ p.name ++ ".ContextListener")))

/-- `Fdc3Impl.broadcast` (after argument validation): fire-and-forget across
platforms; every per-platform failure is swallowed (`catch \x7b return \x7d`),
so the call itself never fails and its observable effect is the list of
successful deliveries. -/
def broadcastRun (context : JVal) (platforms : List Platform) : List Delivery :=
  platforms.flatMap (fun p => (broadcastPlatform p context).1)

/-! ## open -/

/-- Split a character list at every occurrence of the separator; the result
always has at least one (possibly empty) group. -/
def splitChars (sep : Char) : List Char → List (List Char)
  | [] => [[]]
  | c :: cs =>
    match splitChars sep cs with
    | [] => if c == sep then [[], []] else [[c]]
    | g :: gs => if c == sep then [] :: g :: gs else (c :: g) :: gs

/-- The JavaScript `app.split(":")` (structural model, so that it reduces in
the kernel): `"" → [""]`, `"a:b" → ["a", "b"]`, `":" → ["", ""]`. -/
def jsSplitColon (s : String) : List String :=
  (splitChars ':' s.data).map (fun cs => ⟨cs⟩)

/-- `Fdc3Impl.getPlatformName`: the trailing `:`-separated segment of the app
argument when there is more than one segment, else `null`. -/
def getPlatformName (app : String) : Option String :=
  let splitAppName := jsSplitColon app
  if splitAppName.length > 1 then splitAppName.getLast? else none

/-- `Fdc3Impl.getApplicationName`: all but the trailing segment, re-joined on
`:`, when a platform qualifier is present; the whole argument otherwise. -/
def getApplicationName (app : String) : String :=
  let splitAppName := jsSplitColon app
  if splitAppName.length > 1 then String.intercalate ":" splitAppName.dropLast
  else app

/-- `Fdc3Impl.platformHasMethod`: the platform's discovered methods contain
one named `Fdc3.<platform>.<methodName>`. -/
def platformHasMethod (p : Platform) (platformMethods : List Method) (methodName : String) : Bool :=
  let methodFullName := "Fdc3." ++ p.name ++ "." ++ methodName
  (platformMethods.filter (fun m => m.name == methodFullName)).length > 0

/-- `Fdc3Impl.platformHasProvidedApp`: invoke the platform's
`Fdc3.<platform>.ListApplications` method (no arguments); a rejected
invocation means `false` (not fatal); the resulting application list is
filtered by name — more than one hit is an error, exactly one means `true`.
A result payload that is not an array makes the JS `.filter` call throw a
`TypeError`, which escapes the `try` block (it only wraps the invocation). -/
def platformHasProvidedApp (p : Platform) (app : String) : Except String Bool × List RemoteCall :=
  let listApplicationsMethodName := "Fdc3." ++ p.name ++ ".ListApplications"
  let call := RemoteCall.invoke p.name (.byName listApplicationsMethodName) .undefined
  match p.platformApi.invoke (.byName listApplicationsMethodName) .undefined with
  | .error _ => (.ok false, [call])
  | .ok r =>
    match r.result with
    | .jarr platformApplications =>
      let providedAppList :=
        platformApplications.filter (fun a => beqJVal (getField a "name") (.jstr app))
      if providedAppList.length > 1 then
        (.error ("There are multiple applications named '" ++ app ++ "'."), [call])
      else
        (.ok (providedAppList.length == 1), [call])
    | _ => (.error "platformApplications.filter is not a function", [call])

/-- One of the two identically-shaped candidate loops of
`Fdc3Impl.getPlatform`: keep the platforms whose freshly discovered methods
include `Fdc3.<platform>.<methodName>`; a rejected discovery rejects the whole
resolution. -/
def platformsSupportingMethod (methodName : String) :
    List Platform → Except String (List Platform) × List RemoteCall
  | [] => (.ok [], [])
  | p :: rest =>
    match p.platformApi.discoverMethods with
    | .error e => (.error e, [.discover p.name])
    | .ok platformMethods =>
      let (r, tr) := platformsSupportingMethod methodName rest
      (r.map (fun l => if platformHasMethod p platformMethods methodName then p :: l else l),
       .discover p.name :: tr)

/-- The second candidate loop of `Fdc3Impl.getPlatform`: keep the platforms
whose application list contains the requested app. -/
def platformsWithProvidedApp (app : String) :
    List Platform → Except String (List Platform) × List RemoteCall
  | [] => (.ok [], [])
  | p :: rest =>
    match platformHasProvidedApp p app with
    | (.error e, tr) => (.error e, tr)
    | (.ok platformHas, tr) =>
      let (r, tr2) := platformsWithProvidedApp app rest
      (r.map (fun l => if platformHas then p :: l else l), tr ++ tr2)

/-- `Fdc3Impl.getUniquePlatform`: the platform uniquely carrying the given
name (no remote calls involved). -/
def getUniquePlatform (platforms : List Platform) (platformName : String) : Except String Platform :=
  match platforms.filter (fun p => p.name == platformName) with
  | [] => .error ("There is no platform named \"" ++ platformName ++ "\"")
  | [p] => .ok p
  | _ :: _ :: _ => .error ("There are multiple platforms named \"" ++ platformName ++ "\"")

/-- The unqualified branch of `Fdc3Impl.getPlatform`: narrow to platforms
exposing `ListApplications`, then to those listing the app (zero → not-found
error, several → ambiguity error), then to those exposing `StartApplication`,
and return the first of that final list — `undefined` (here `none`) when the
final list is empty, since the source indexes `[0]` unchecked. -/
def getPlatformUnqualified (platforms : List Platform) (appName : String) :
    Except String (Option Platform) × List RemoteCall :=
  match platformsSupportingMethod "ListApplications" platforms with
  | (.error e, tr) => (.error e, tr)
  | (.ok platformsSupportingListApplications, tr1) =>
    match platformsWithProvidedApp appName platformsSupportingListApplications with
    | (.error e, tr2) => (.error e, tr1 ++ tr2)
    | (.ok candidates, tr2) =>
      if candidates.length == 0 then
        (.error ("There are no platforms with application named '" ++ appName ++ "'."),
         tr1 ++ tr2)
      else if candidates.length > 1 then
        (.error ("There are multiple platforms with application named '" ++ appName ++ "'."),
         tr1 ++ tr2)
      else
        match platformsSupportingMethod "StartApplication" candidates with
        | (.error e, tr3) => (.error e, tr1 ++ tr2 ++ tr3)
        | (.ok platformsSupportingStart, tr3) =>
          (.ok platformsSupportingStart.head?, tr1 ++ tr2 ++ tr3)

/-- `Fdc3Impl.getPlatform`: qualified resolution goes through
`getUniquePlatform` (its error re-thrown as `error.message || default`);
unqualified resolution performs full discovery. -/
def getPlatform (platforms : List Platform) (appName : String) (platformName : Option String)
    (defaultMsg : String) : Except String (Option Platform) × List RemoteCall :=
  match platformName with
  | some pn =>
    (match getUniquePlatform platforms pn with
     | .error e => .error (if e == "" then defaultMsg else e)
     | .ok p => .ok (some p),
     [])
  | none => getPlatformUnqualified platforms appName

/-- The JS `TypeError` message raised when `open` dereferences the
`undefined` platform produced by an empty final candidate list. -/
def undefinedPlatformMsg : String := "Cannot read properties of undefined (reading 'name')"

/-- The default error message `open` installs before resolving. -/
def defaultErrorMessage (appName : String) : String :=
  "Unable to start application named \"" ++ appName ++ "\""

/-- The application name `open` works with: the qualifier-stripped name when a
platform qualifier is present, the raw argument otherwise (the first two
`let`s of `Fdc3Impl.open`). -/
def appNameOf (app : String) : String :=
  if (getPlatformName app).isSome then getApplicationName app else app

/-- `Fdc3Impl.open` (after argument validation): resolve the target platform,
then invoke its `Fdc3.<platform>.StartApplication` method with
`\x7bapplication, context\x7d`; a resolution error is re-thrown as
`error.message || defaultErrorMessage`; an invocation rejection is replaced by
the default message; a successful invocation yields its `result` payload. -/
def openApp (platforms : List Platform) (app : String) (context : JVal) :
    Except String JVal × List RemoteCall :=
  let platformName := getPlatformName app
  let appName := appNameOf app
  let defaultMsg := defaultErrorMessage appName
  match getPlatform platforms appName platformName defaultMsg with
  | (.error e, tr) => (.error (if e == "" then defaultMsg else e), tr)
  | (.ok none, tr) => (.error undefinedPlatformMsg, tr)
  | (.ok (some platform), tr) =>
    let args := JVal.jobj [("application", .jstr appName), ("context", context)]
    let methodName := "Fdc3." ++ platform.name ++ ".StartApplication"
    let call := RemoteCall.invoke platform.name (.byName methodName) args
    match platform.platformApi.invoke (.byName methodName) args with
    | .ok startInvokeResult => (.ok startInvokeResult.result, tr ++ [call])
    | .error _ => (.error defaultMsg, tr ++ [call])

/-! ## Listener registration -/

/-- `Fdc3Impl.addIntentListener` (after argument validation): the handler goes
into the local callback registry; the only remote interaction is installing a
registration-change hook on every platform. -/
def addIntentListenerRun (platforms : List Platform) : Except String Unit × List RemoteCall :=
  (.ok (), platforms.map (fun p => .onMethodRegistered p.name))

/-- `Fdc3Impl.addContextListener` (after argument validation): the handler
goes into the local callback registry; on every platform a forwarding method
named `Fdc3.<platform>.ContextListener` is registered. -/
def addContextListenerRun (platforms : List Platform) : Except String Unit × List RemoteCall :=
  (.ok (), platforms.map (fun p => .register p.name ("Fdc3." ++ p.name ++ ".ContextListener")))

/-! ## Bus construction -/

/-- Modelled from the spec: a configured platform connection descriptor
(`InteropPlatform` of the missing `interfaces/client-api.ts`), carrying its
type name and the capability handle its eventual connection yields. -/
structure InteropPlatform where
  type : String
  api : PlatformApi

/-- Modelled from the spec: `Utils.connectUntilReady` retries the connection
on a fixed interval until it succeeds, so connection eventually yields a
connected platform handle named after the descriptor's type
(`Utils.interopPlatformsToPlatforms`). -/
def connectPlatform (ip : InteropPlatform) : Platform :=
  ⟨ip.type, ip.api⟩

/-- `Fdc3Bus`: reject when two descriptors share a platform type (the source
compares the name list's length against its `Set`'s size) before any
connection attempt; otherwise connect every platform and assemble the engine.
The second component lists the platform types a connection attempt is made
for, in order. -/
def Fdc3Bus (interopPlatforms : List InteropPlatform) :
    Except String (List Platform) × List String :=
  let interopPlatformNames := interopPlatforms.map (fun ip => ip.type)
  if interopPlatformNames.dedup.length != interopPlatformNames.length then
    (.error "Multiple platforms have the same type.", [])
  else
    (.ok (interopPlatforms.map connectPlatform), interopPlatformNames)

/-! ## Argument validation (Utils) -/

/-- `Utils.validateContext`. -/
def validateContext (context : JVal) : Except String Unit :=
  if !truthy context then .ok ()
  else if typeOf context != "object" then .error "Context must be of type \"object\""
  else if !truthy (getField context "type") then .error "Context type is mandatory parameter"
  else if typeOf (getField context "type") != "string" then
    .error "Context type must be of type \"string\""
  else if truthy (getField context "name") && typeOf (getField context "name") != "string" then
    .error "Context name must be of type \"string\""
  else .ok ()

/-- `Utils.validateOpenParams` (the `try`/`catch` around the context check
re-throws with the identical message). -/
def validateOpenParams (app : JVal) (context : JVal) : Except String Unit :=
  if !truthy app then .error "App is mandatory parameter"
  else if typeOf app != "string" then .error "App must be of type \"string\""
  else validateContext context

/-- `Utils.validateIntent`. -/
def validateIntent (intent : JVal) : Except String Unit :=
  if !truthy intent then .error "Intent is mandatory parameter"
  else if typeOf intent != "string" then .error "Intent must be of type \"string\""
  else .ok ()

/-- `Utils.validateIntentAndContextParams`. -/
def validateIntentAndContextParams (intent : JVal) (context : JVal) : Except String Unit :=
  match validateIntent intent with
  | .error e => .error e
  | .ok () => validateContext context

/-- `Utils.validateRaiseIntent`. -/
def validateRaiseIntent (intent : JVal) (context : JVal) (target : JVal) : Except String Unit :=
  match validateIntentAndContextParams intent context with
  | .error e => .error e
  | .ok () =>
    if truthy target && typeOf target != "string" then .error "Target must be of type \"string\""
    else .ok ()

/-- `Utils.validateAddIntentListener`. -/
def validateAddIntentListener (intent : JVal) (handler : JVal) : Except String Unit :=
  match validateIntent intent with
  | .error e => .error e
  | .ok () =>
    if !truthy handler then .error "Handler is mandatory parameter"
    else if typeOf handler != "function" then .error "Handler must be of type \"function\""
    else .ok ()

/-- The inline handler validation at the top of `Fdc3Impl.addContextListener`. -/
def validateAddContextListener (handler : JVal) : Except String Unit :=
  if !truthy handler then .error "Handler is mandatory parameter"
  else if typeOf handler != "function" then .error "Handler must be of type \"function\""
  else .ok ()

/-! ## The public surface with validation in front

Runtime argument values are dynamic (`JVal`); when validation has succeeded
the string-typed arguments are known to be `jstr` values and are converted by
`asStringD` (whose non-string branch is unreachable under a passed
validation). -/

/-- Extract the underlying string of a validated string-typed argument. -/
def asStringD (v : JVal) : String :=
  match v with
  | .jstr s => s
  | _ => ""

/-- The results the six validated operations can resolve with. -/
inductive Outcome where
  | value (v : JVal)
  | oneAppIntent (a : AppIntent)
  | manyAppIntents (l : List AppIntent)
  | listenerHandle
  deriving Repr

/-- One call to the engine's public surface, with raw (dynamic) arguments. -/
inductive ApiCall where
  | openC (app context : JVal)
  | findIntentC (intent context : JVal)
  | findIntentsByContextC (context : JVal)
  | raiseIntentC (intent context target : JVal)
  | addIntentListenerC (intent handler : JVal)
  | addContextListenerC (handler : JVal)

/-- The validator each public operation runs first, matching the source
line-for-line. -/
def validateCall : ApiCall → Except String Unit
  | .openC app context => validateOpenParams app context
  | .findIntentC intent context => validateIntentAndContextParams intent context
  | .findIntentsByContextC context => validateContext context
  | .raiseIntentC intent context target => validateRaiseIntent intent context target
  | .addIntentListenerC intent handler => validateAddIntentListener intent handler
  | .addContextListenerC handler => validateAddContextListener handler

/-- A public operation end to end: validation first (a thrown validation
error leaves the engine before any remote call), then the operation body. -/
def runCall (platforms : List Platform) : ApiCall → Except String Outcome × List RemoteCall
  | .openC app context =>
    match validateOpenParams app context with
    | .error e => (.error e, [])
    | .ok () =>
      let (r, tr) := openApp platforms (asStringD app) context
      (r.map .value, tr)
  | .findIntentC intent context =>
    match validateIntentAndContextParams intent context with
    | .error e => (.error e, [])
    | .ok () =>
      let (r, tr) := findIntent (asStringD intent) context platforms
      (r.map .oneAppIntent, tr)
  | .findIntentsByContextC context =>
    match validateContext context with
    | .error e => (.error e, [])
    | .ok () =>
      let (r, tr) := findIntentsByContext context platforms
      (r.map .manyAppIntents, tr)
  | .raiseIntentC intent context target =>
    match validateRaiseIntent intent context target with
    | .error e => (.error e, [])
    | .ok () =>
      let tgt := if truthy target then some (asStringD target) else none
      let (r, tr) := raiseIntentRun (asStringD intent) context tgt platforms
      (r.map .value, tr)
  | .addIntentListenerC intent handler =>
    match validateAddIntentListener intent handler with
    | .error e => (.error e, [])
    | .ok () =>
      let (r, tr) := addIntentListenerRun platforms
      (r.map (fun _ => .listenerHandle), tr)
  | .addContextListenerC handler =>
    match validateAddContextListener handler with
    | .error e => (.error e, [])
    | .ok () =>
      let (r, tr) := addContextListenerRun platforms
      (r.map (fun _ => .listenerHandle), tr)

/-! ## Claim-side reference definitions -/

/-- Modelled from the spec: the routing policy the spec's wording ascribes to
`raiseIntent` — scan the platforms sequentially, skip a platform whose
matching-method set is empty, and commit to the first platform with any match
(zero on the committed platform cannot happen; several is the ambiguity
error; exactly one is invoked).  Compared against `raiseIntentRun`. -/
def raiseIntentClaimed (intent : String) (context : JVal) (target : Option String) :
    List Platform → Except String JVal
  | [] => .error ("There is no method with intent \"" ++ intent ++ "\"")
  | p :: rest =>
    match p.platformApi.discoverMethods with
    | .error e => .error e
    | .ok methods =>
      match methods.filter (raiseIntentMatches intent target) with
      | [] => raiseIntentClaimed intent context target rest
      | [m] => (p.platformApi.invoke (.byMethod m) context).map InvokeResult.result
      | _ :: _ :: _ =>
        .error ("There are multiple applications with method with intent \"" ++ intent ++ "\"")

/-- Remove the first occurrence of an element (by `BEq`), if present. -/
def eraseFirst [BEq α] : List α → α → Option (List α)
  | [], _ => none
  | x :: xs, y => if x == y then some xs else (eraseFirst xs y).map (fun l => x :: l)

/-- Multiset equality of two lists by `BEq`. -/
def isPermBy [BEq α] : List α → List α → Bool
  | [], [] => true
  | [], _ :: _ => false
  | x :: xs, ys =>
    match eraseFirst ys x with
    | none => false
    | some ys2 => isPermBy xs ys2

/-- Modelled from the spec: the claim's notion of *structural equality* of two
context objects — equal key/value sets regardless of key order (non-objects
compare by value equality).  Compared against the serialized comparison the
code performs. -/
def structurallyEqual (a b : JVal) : Bool :=
  match a, b with
  | .jobj fa, .jobj fb => isPermBy fa fb
  | x, y => beqJVal x y

/-! ## Concrete inputs used by counterexamples and witnesses -/

/-- A capability handle whose discovery yields the given methods and whose
every invocation resolves with the given payload. -/
def okApi (methods : List Method) (res : JVal) : PlatformApi :=
  ⟨.ok methods, fun _ _ => .ok ⟨res⟩⟩

/-- A capability handle whose discovery rejects. -/
def downApi (e : String) : PlatformApi :=
  ⟨.error e, fun _ _ => .ok ⟨.undefined⟩⟩

def c1Method1 : Method := ⟨"m1", [⟨"Other", .undefined⟩], ⟨"A1"⟩⟩
def c1Method2 : Method := ⟨"m2", [⟨"Y", .undefined⟩], ⟨"A2"⟩⟩
def c1Platform1 : Platform := ⟨"P1", okApi [c1Method1] (.jstr "from-P1")⟩
def c1Platform2 : Platform := ⟨"P2", okApi [c1Method2] (.jstr "from-P2")⟩
def c1wMethod : Method := ⟨"mw", [⟨"Y", .undefined⟩], ⟨"AW"⟩⟩
def c1wFirst : Platform := ⟨"PW", okApi [c1wMethod] (.jstr "hit")⟩
def c1wLater : Platform := ⟨"PX", okApi [] .undefined⟩

def c7Listener (pname : String) : Method :=
  ⟨"Fdc3." ++ pname ++ ".ContextListener", [], ⟨"L" ++ pname⟩⟩
def c7P1 : Platform := ⟨"B1", okApi [c7Listener "B1"] .undefined⟩
def c7P2 : Platform := ⟨"B2", downApi "discovery down"⟩
def c7P3 : Platform := ⟨"B3", okApi [c7Listener "B3"] .undefined⟩

def c8A : InteropPlatform := ⟨"glue", okApi [] .undefined⟩
def c8B : InteropPlatform := ⟨"glue", okApi [] .undefined⟩

def c9Platform : Platform := ⟨"P", okApi [] .undefined⟩

def c2CtxA : JVal := .jobj [("type", .jstr "fdc3.instrument"), ("name", .jstr "IBM")]
def c2CtxB : JVal := .jobj [("name", .jstr "IBM"), ("type", .jstr "fdc3.instrument")]
def c2Method : Method := ⟨"quote", [⟨"X", c2CtxB⟩], ⟨"Bloom"⟩⟩
def c2P : Platform := ⟨"Q", okApi [c2Method] .undefined⟩
def c2wGood : Method := ⟨"g", [⟨"X", c2CtxA⟩], ⟨"Good"⟩⟩
def c2wBad : Method :=
  ⟨"b", [⟨"X", .jobj [("type", .jstr "fdc3.instrument"), ("name", .jstr "MSFT")]⟩], ⟨"Bad"⟩⟩
def c2wP : Platform := ⟨"R", okApi [c2wGood, c2wBad] .undefined⟩

def c3M1 : Method := ⟨"f1", [⟨"X", .undefined⟩], ⟨"Sky"⟩⟩
def c3M2 : Method := ⟨"f2", [⟨"X", .undefined⟩, ⟨"Z", .undefined⟩], ⟨"Sky"⟩⟩
def c3P : Platform := ⟨"W", okApi [c3M1, c3M2] .undefined⟩

def listApplicationsMethodFor (pname : String) : Method :=
  ⟨"Fdc3." ++ pname ++ ".ListApplications", [], ⟨"sys"⟩⟩
def startApplicationMethodFor (pname : String) : Method :=
  ⟨"Fdc3." ++ pname ++ ".StartApplication", [], ⟨"sys"⟩⟩

def c4Api : PlatformApi :=
  ⟨.ok [listApplicationsMethodFor "G", startApplicationMethodFor "G"],
   fun ref _ =>
     match ref with
     | .byName n =>
       if n == "Fdc3.G.ListApplications" then .ok ⟨.jarr [.jobj [("name", .jstr "app")]]⟩
       else .ok ⟨.jstr "started"⟩
     | _ => .ok ⟨.undefined⟩⟩
def c4P : Platform := ⟨"G", c4Api⟩

def c5Api : PlatformApi :=
  ⟨.ok [listApplicationsMethodFor "H"],
   fun ref _ =>
     match ref with
     | .byName n =>
       if n == "Fdc3.H.ListApplications" then .ok ⟨.jarr [.jobj [("name", .jstr "app")]]⟩
       else .error "no such method"
     | _ => .error "no such method"⟩
def c5P : Platform := ⟨"H", c5Api⟩

def c5wApi : PlatformApi :=
  ⟨.ok [listApplicationsMethodFor "K", startApplicationMethodFor "K"],
   fun ref _ =>
     match ref with
     | .byName n =>
       if n == "Fdc3.K.ListApplications" then .ok ⟨.jarr [.jobj [("name", .jstr "app")]]⟩
       else .error "launch refused"
     | _ => .error "launch refused"⟩
def c5wP : Platform := ⟨"K", c5wApi⟩

/-- The (intent name, application name) pairs one method contributes in
`findIntentsByContext`, in declaration order. -/
def contextMatchPairs (context : JVal) (m : Method) : List (String × String) :=
  (m.intent.filter (fun mi => stringify mi.context == stringify context)).map
    (fun mi => (mi.name, m.peer.applicationName))

/-- Record a name as seen, keeping the first-seen order. -/
def seenStep (acc : List String) (n : String) : List String :=
  if n ∈ acc then acc else acc ++ [n]

/-- Fold `seenStep` over a name list starting from already-seen names. -/
def firstSeenAux (acc : List String) (names : List String) : List String :=
  names.foldl seenStep acc

/-- The distinct names of a list in first-seen order. -/
def firstSeen (names : List String) : List String :=
  firstSeenAux [] names

/-- The grouping the claim describes: one `AppIntent` per distinct intent
name in first-seen order, holding every matching application in match
order. -/
def groupedAppIntents (l : List (String × String)) : List AppIntent :=
  (firstSeen (l.map Prod.fst)).map
    (fun n => ⟨⟨n, n⟩, (l.filter (fun x => x.1 == n)).map (fun x => ⟨x.2⟩)⟩)

def c6Ctx : JVal := .jobj [("type", .jstr "fdc3.contact")]
def c6MA : Method := ⟨"a", [⟨"Call", c6Ctx⟩], ⟨"AppA"⟩⟩
def c6MB : Method := ⟨"b", [⟨"Call", c6Ctx⟩, ⟨"Chat", c6Ctx⟩], ⟨"AppB"⟩⟩
def c6PA : Platform := ⟨"PA", okApi [c6MA] .undefined⟩
def c6PB : Platform := ⟨"PB", okApi [c6MB] .undefined⟩

/-! ## Theorems -/

/-- **C10.** With an empty platform list, `raiseIntent` neither rejects nor
returns an `IntentResolution`: it resolves with `undefined` and issues no
remote calls, for every intent, context and optional target. -/
theorem raiseIntent_emptyPlatforms (intent : String) (context : JVal) (target : Option String) :
    raiseIntentRun intent context target [] = (.ok .undefined, []) := rfl

/-- **C1 (counterexample).** The claim says `raiseIntent` commits to the first
platform in iteration order *that has any intent-matching method*.  On a
platform list whose first platform has no matching method and whose second
has exactly one, the claimed policy invokes the second platform's method and
returns its payload, but the code rejects with the no-method error at the
first platform — later platforms are never consulted at all. -/
theorem raiseIntent_crossPlatform_cex :
    (raiseIntentRun "Y" (.jobj [("type", .jstr "t")]) none [c1Platform1, c1Platform2]).1 =
      .error ("There is no method with intent \"Y\"") ∧
    raiseIntentClaimed "Y" (.jobj [("type", .jstr "t")]) none [c1Platform1, c1Platform2] =
      .ok (.jstr "from-P2") := by
  constructor <;> rfl

/-- **C1 (amended).** `raiseIntent` commits to the *first platform of the
list*, unconditionally: prepending any further platforms changes nothing, and
on the first platform's discovered methods the per-platform cardinality
policy applies — an empty matching set rejects with the no-method error, more
than one match rejects with the ambiguity error, and a unique match is
invoked with the context, its invocation outcome (result payload or
rejection) becoming the call's outcome. -/
theorem raiseIntent_first_platform_commit (p : Platform) (rest : List Platform)
    (intent : String) (context : JVal) (target : Option String)
    (ms : List Method) (h : p.platformApi.discoverMethods = .ok ms) :
    raiseIntentRun intent context target (p :: rest) = raiseIntentRun intent context target [p] ∧
    ((ms.filter (raiseIntentMatches intent target) = [] →
       (raiseIntentRun intent context target (p :: rest)).1 =
         .error ("There is no method with intent \"" ++ intent ++ "\"")) ∧
     (∀ m, ms.filter (raiseIntentMatches intent target) = [m] →
       (raiseIntentRun intent context target (p :: rest)).1 =
         (p.platformApi.invoke (.byMethod m) context).map InvokeResult.result) ∧
     (∀ m1 m2 l, ms.filter (raiseIntentMatches intent target) = m1 :: m2 :: l →
       (raiseIntentRun intent context target (p :: rest)).1 =
         .error ("There are multiple applications with method with intent \"" ++ intent ++ "\""))) := by
  refine ⟨?_, ?_, ?_, ?_⟩
  · simp only [raiseIntentRun, h]
  · intro hf
    simp only [raiseIntentRun, h, hf]
  · intro m hf
    simp only [raiseIntentRun, h, hf]
    cases hinv : p.platformApi.invoke (.byMethod m) context <;> simp [hinv, Except.map]
  · intro m1 m2 l hf
    simp only [raiseIntentRun, h, hf]

/-- Witness for `raiseIntent_first_platform_commit`: a first platform with a
unique matching method wins even though a later platform exists. -/
theorem raiseIntent_first_platform_commit_witness :
    (raiseIntentRun "Y" .undefined none [c1wFirst, c1wLater]).1 = .ok (.jstr "hit") :=
  ((raiseIntent_first_platform_commit c1wFirst [c1wLater] "Y" .undefined none
    [c1wMethod] rfl).2.2.1 c1wMethod rfl).trans rfl

/-- **C7.** `broadcast` never fails (its result type has no error case) and
isolates per-platform failures: one platform's deliveries — whatever error
its discovery or one of its invocations produced and had swallowed — never
affect the deliveries of the platforms before or after it, and a platform
whose discovery rejected delivers nothing. -/
theorem broadcast_swallows_platform_failure (ps1 : List Platform) (bad : Platform)
    (ps2 : List Platform) (context : JVal) :
    broadcastRun context (ps1 ++ bad :: ps2) =
      broadcastRun context ps1 ++ (broadcastPlatform bad context).1 ++
        broadcastRun context ps2 ∧
    (∀ e, bad.platformApi.discoverMethods = .error e →
      (broadcastPlatform bad context).1 = []) := by
  constructor
  · simp [broadcastRun]
  · intro e h
    simp [broadcastPlatform, h]

/-- Witness for `broadcast_swallows_platform_failure`: three platforms, the
middle one's discovery rejecting; platforms 1 and 3 are still delivered to
and the caller observes no error. -/
theorem broadcast_swallows_platform_failure_witness :
    broadcastRun (.jobj [("type", .jstr "t")]) [c7P1, c7P2, c7P3] =
      [⟨"B1", "Fdc3.B1.ContextListener"⟩, ⟨"B3", "Fdc3.B3.ContextListener"⟩] := by
  have h := broadcast_swallows_platform_failure [c7P1] c7P2 [c7P3] (.jobj [("type", .jstr "t")])
  refine h.1.trans ?_
  rw [h.2 "discovery down" rfl]
  rfl

/-- **C8.** Bus construction rejects on a duplicated platform type before any
connection attempt (empty attempt list); with all types distinct it connects
every configured platform, in order, and returns the engine over all of
them. -/
theorem fdc3Bus_duplicate_check (ips : List InteropPlatform) :
    (¬ (ips.map (fun ip => ip.type)).Nodup →
      Fdc3Bus ips = (.error "Multiple platforms have the same type.", [])) ∧
    ((ips.map (fun ip => ip.type)).Nodup →
      Fdc3Bus ips = (.ok (ips.map connectPlatform), ips.map (fun ip => ip.type))) := by
  constructor
  · intro hnd
    have hlen : (ips.map (fun ip => ip.type)).dedup.length ≠ ips.length := by
      intro heq
      apply hnd
      apply List.dedup_eq_self.mp
      apply List.Sublist.eq_of_length (List.dedup_sublist _)
      simpa using heq
    simp [Fdc3Bus, hlen]
  · intro hnd
    have heq : (ips.map (fun ip => ip.type)).dedup.length =
        (ips.map (fun ip => ip.type)).length := by
      rw [List.Nodup.dedup hnd]
    simp [Fdc3Bus, heq]

/-- Witness for `fdc3Bus_duplicate_check`: two descriptors of type `glue`
make construction fail with the configuration error and no connection
attempts. -/
theorem fdc3Bus_duplicate_check_witness :
    Fdc3Bus [c8A, c8B] = (.error "Multiple platforms have the same type.", []) :=
  (fdc3Bus_duplicate_check [c8A, c8B]).1 (by decide)

/-- **C9.** Whenever the argument validator of one of the six public
operations rejects (missing or malformed `app`, `intent`, `context`,
`handler` or `target`), the operation fails with exactly that validation
error and issues no remote capability call. -/
theorem validation_precedes_remote_calls (c : ApiCall) (platforms : List Platform)
    (e : String) (h : validateCall c = .error e) :
    runCall platforms c = (.error e, []) := by
  cases c <;> simp only [validateCall] at h <;> simp [runCall, h]

/-- Witness for `validation_precedes_remote_calls`: `raiseIntent` with a
missing intent fails with the validation error and an empty remote-call
trace, despite a connected platform being available. -/
theorem validation_precedes_remote_calls_witness :
    runCall [c9Platform] (.raiseIntentC .undefined .undefined .undefined) =
      (.error "Intent is mandatory parameter", []) :=
  validation_precedes_remote_calls (.raiseIntentC .undefined .undefined .undefined) [c9Platform]
    "Intent is mandatory parameter" rfl

/-- With no supplied context the context test always passes, so a method
contributes one entry per declared intent entry of the requested name. -/
theorem methodMatches_noContext (intent : String) (m : Method) :
    methodMatches intent .undefined m =
      (m.intent.filter (fun mi => mi.name == intent)).map
        (fun _ => (⟨m.peer.applicationName⟩ : AppMetadata)) := by
  obtain ⟨mn, mis, mp⟩ := m
  cases mis <;> simp [methodMatches, intentContextMatches, truthy]

/-- With a truthy supplied context the context test is serialized equality. -/
theorem methodMatches_truthyContext (intent : String) {context : JVal}
    (hc : truthy context = true) (m : Method) :
    methodMatches intent context m =
      (m.intent.filter
        (fun mi => mi.name == intent && stringify context == stringify mi.context)).map
        (fun _ => (⟨m.peer.applicationName⟩ : AppMetadata)) := by
  obtain ⟨mn, mis, mp⟩ := m
  cases mis <;> simp [methodMatches, intentContextMatches, hc]

/-- The platform loop of `findIntent` on all-successful discoveries collects
the per-platform matches in platform order. -/
theorem findIntentLoop_ok (intent : String) (context : JVal) (ps : List Platform)
    (ms : Platform → List Method)
    (h : ∀ p ∈ ps, p.platformApi.discoverMethods = .ok (ms p)) :
    (findIntentLoop intent context ps).1 =
      .ok (ps.flatMap (fun p => (ms p).flatMap (methodMatches intent context))) := by
  induction ps with
  | nil => rfl
  | cons p rest ih =>
    have hp := h p (by simp)
    have hrest := ih (fun q hq => h q (by simp [hq]))
    rcases hrec : findIntentLoop intent context rest with ⟨r, tr⟩
    rw [hrec] at hrest
    simp only at hrest
    simp [findIntentLoop, hp, hrec, hrest, Except.map]

/-- **C3.** `findIntent` without a context returns one `AppIntent` whose
`apps` list holds the owning application of every declared intent entry of
the requested name, over all platforms in platform-then-method iteration
order, duplicates preserved (one entry per matching intent entry). -/
theorem findIntent_noContext (intent : String) (ps : List Platform)
    (ms : Platform → List Method)
    (h : ∀ p ∈ ps, p.platformApi.discoverMethods = .ok (ms p)) :
    (findIntent intent .undefined ps).1 =
      .ok ⟨⟨intent, intent⟩,
        ps.flatMap (fun p => (ms p).flatMap (fun m =>
          (m.intent.filter (fun mi => mi.name == intent)).map
            (fun _ => ⟨m.peer.applicationName⟩)))⟩ := by
  rcases hrec : findIntentLoop intent .undefined ps with ⟨r, tr⟩
  have hloop := findIntentLoop_ok intent .undefined ps ms h
  rw [hrec] at hloop
  simp only at hloop
  have hfun : methodMatches intent JVal.undefined = fun m =>
      (m.intent.filter (fun mi => mi.name == intent)).map
        (fun _ => (⟨m.peer.applicationName⟩ : AppMetadata)) :=
    funext fun m => methodMatches_noContext intent m
  simp [findIntent, hrec, hloop, hfun, Except.map]

/-- Witness for `findIntent_noContext`: one platform exposing two methods for
intent `X` contributes two (duplicate) apps entries. -/
theorem findIntent_noContext_witness :
    (findIntent "X" .undefined [c3P]).1 =
      .ok ⟨⟨"X", "X"⟩, [⟨"Sky"⟩, ⟨"Sky"⟩]⟩ :=
  (findIntent_noContext "X" [c3P] (fun _ => [c3M1, c3M2])
    (by intro p hp; simp at hp; subst hp; rfl)).trans rfl

/-- **C2 (counterexample).** The two contexts hold the same key/value set in
different key order, so the claim's structural equality accepts them, yet
`findIntent` excludes the method: the code compares `JSON.stringify` output,
which preserves key order. -/
theorem findIntent_keyOrder_cex :
    structurallyEqual c2CtxA c2CtxB = true ∧
    (findIntent "X" c2CtxA [c2P]).1 = .ok ⟨⟨"X", "X"⟩, []⟩ := by
  constructor <;> rfl

/-- **C2 (amended).** With a supplied (truthy) context, a declared intent
entry is kept if and only if its name equals the requested intent and the
`JSON.stringify` serializations of the supplied and declared contexts are
identical — key order included — so contexts differing in any value, or in
key order, are excluded. -/
theorem findIntent_context_serializedEq (intent : String) (context : JVal)
    (ps : List Platform) (ms : Platform → List Method)
    (hc : truthy context = true)
    (h : ∀ p ∈ ps, p.platformApi.discoverMethods = .ok (ms p)) :
    (findIntent intent context ps).1 =
      .ok ⟨⟨intent, intent⟩,
        ps.flatMap (fun p => (ms p).flatMap (fun m =>
          (m.intent.filter
            (fun mi => mi.name == intent && stringify context == stringify mi.context)).map
            (fun _ => ⟨m.peer.applicationName⟩)))⟩ := by
  rcases hrec : findIntentLoop intent context ps with ⟨r, tr⟩
  have hloop := findIntentLoop_ok intent context ps ms h
  rw [hrec] at hloop
  simp only at hloop
  have hfun : methodMatches intent context = fun m =>
      (m.intent.filter
        (fun mi => mi.name == intent && stringify context == stringify mi.context)).map
        (fun _ => (⟨m.peer.applicationName⟩ : AppMetadata)) :=
    funext fun m => methodMatches_truthyContext intent hc m
  simp [findIntent, hrec, hloop, hfun, Except.map]

/-- Witness for `findIntent_context_serializedEq`: the method whose declared
context serializes identically is kept, the one differing in a value is
excluded. -/
theorem findIntent_context_serializedEq_witness :
    (findIntent "X" c2CtxA [c2wP]).1 = .ok ⟨⟨"X", "X"⟩, [⟨"Good"⟩]⟩ :=
  (findIntent_context_serializedEq "X" c2CtxA [c2wP] (fun _ => [c2wGood, c2wBad])
    rfl (by intro p hp; simp at hp; subst hp; rfl)).trans rfl

/-- A three-part string concatenation with a non-empty literal prefix is
non-empty. -/
theorem concat3_ne_empty (a pre post : String) (hpre : 0 < pre.length) :
    (pre ++ a ++ post) ≠ "" := by
  intro h0
  have h1 := congrArg String.length h0
  rw [String.length_append, String.length_append] at h1
  have h2 : ("" : String).length = 0 := rfl
  rw [h2] at h1
  omega

/-- **C4.** `open` with an unqualified app name applies the candidate
cardinality policy: among the `ListApplications`-capable platforms, those
listing the app are the candidates — zero rejects with the not-found error,
several reject with the ambiguity error, and with exactly one candidate that
also exposes `StartApplication`, its `Fdc3.<platform>.StartApplication`
method is invoked with `\x7bapplication, context\x7d` and a successful
invocation's result payload is returned. -/
theorem open_unqualified_cardinality (ps : List Platform) (app : String) (context : JVal)
    (hq : getPlatformName app = none)
    (supp cands : List Platform) (tr1 tr2 : List RemoteCall)
    (hs : platformsSupportingMethod "ListApplications" ps = (.ok supp, tr1))
    (hw : platformsWithProvidedApp app supp = (.ok cands, tr2)) :
    (cands = [] →
      (openApp ps app context).1 =
        .error ("There are no platforms with application named '" ++ app ++ "'.")) ∧
    (∀ q1 q2 l, cands = q1 :: q2 :: l →
      (openApp ps app context).1 =
        .error ("There are multiple platforms with application named '" ++ app ++ "'.")) ∧
    (∀ q ms3 r, cands = [q] →
      q.platformApi.discoverMethods = .ok ms3 →
      platformHasMethod q ms3 "StartApplication" = true →
      q.platformApi.invoke (.byName ("Fdc3." ++ q.name ++ ".StartApplication"))
          (.jobj [("application", .jstr app), ("context", context)]) = .ok r →
      (openApp ps app context).1 = .ok r.result) := by
  have happ : appNameOf app = app := by simp [appNameOf, hq]
  refine ⟨?_, ?_, ?_⟩
  · intro hc
    subst hc
    have hne := concat3_ne_empty app "There are no platforms with application named '" "'."
      (by decide)
    simp [openApp, getPlatform, getPlatformUnqualified, hq, happ, hs, hw, hne]
  · intro q1 q2 l hc
    subst hc
    have hne := concat3_ne_empty app "There are multiple platforms with application named '"
      "'." (by decide)
    simp [openApp, getPlatform, getPlatformUnqualified, hq, happ, hs, hw, hne]
  · intro q ms3 r hc hq3 hstart hinv
    subst hc
    simp [openApp, getPlatform, getPlatformUnqualified, platformsSupportingMethod,
      hq, happ, hs, hw, hq3, hstart, hinv, Except.map]

/-- Witness for `open_unqualified_cardinality`: a single platform listing the
app and exposing a start capability; `open` returns the start invocation's
result payload. -/
theorem open_unqualified_cardinality_witness :
    (openApp [c4P] "app" (.jobj [("type", .jstr "t")])).1 = .ok (.jstr "started") :=
  (open_unqualified_cardinality [c4P] "app" (.jobj [("type", .jstr "t")]) rfl
    [c4P] [c4P] [.discover "G"] [.invoke "G" (.byName "Fdc3.G.ListApplications") .undefined]
    rfl rfl).2.2 c4P [listApplicationsMethodFor "G", startApplicationMethodFor "G"]
    ⟨.jstr "started"⟩ rfl rfl rfl rfl

/-- **C5 (counterexample).** When resolution narrows to exactly one platform
listing the app but that platform exposes no `StartApplication` method, the
final candidate list is empty, the source indexes it at `[0]` and then
dereferences `undefined`: `open` rejects with a `TypeError`, whose message is
neither the application-specific default nor any resolution-produced
message. -/
theorem open_typeError_cex :
    (openApp [c5P] "app" .undefined).1 = .error undefinedPlatformMsg ∧
    undefinedPlatformMsg ≠ defaultErrorMessage "app" := by
  exact ⟨rfl, by decide⟩

/-- **C5 (amended).** Every failure of `open` after argument validation
carries the application-specific default message, or a more specific message
produced by platform resolution, or — when resolution succeeds with an empty
final candidate list (no `StartApplication`-capable platform) — the
`TypeError` message from dereferencing the `undefined` platform. -/
theorem open_failure_messages (ps : List Platform) (app : String) (context : JVal) (m : String)
    (h : (openApp ps app context).1 = .error m) :
    m = defaultErrorMessage (appNameOf app) ∨
    (∃ e, (getPlatform ps (appNameOf app) (getPlatformName app)
        (defaultErrorMessage (appNameOf app))).1 = .error e ∧ m = e) ∨
    ((getPlatform ps (appNameOf app) (getPlatformName app)
        (defaultErrorMessage (appNameOf app))).1 = .ok none ∧ m = undefinedPlatformMsg) := by
  simp only [openApp] at h
  rcases hg : getPlatform ps (appNameOf app) (getPlatformName app)
      (defaultErrorMessage (appNameOf app)) with ⟨res, tr⟩
  rw [hg] at h
  match res, h with
  | .error e, h =>
    dsimp only at h
    cases hbe : (e == "") with
    | true =>
      simp only [hbe] at h
      left
      cases h
      rfl
    | false =>
      simp only [hbe, Bool.false_eq_true, if_false] at h
      right; left
      exact ⟨e, rfl, by cases h; rfl⟩
  | .ok none, h =>
    right; right
    refine ⟨rfl, ?_⟩
    dsimp only at h
    cases h
    rfl
  | .ok (some platform), h =>
    dsimp only at h
    cases hinv : platform.platformApi.invoke
        (.byName ("Fdc3." ++ platform.name ++ ".StartApplication"))
        (.jobj [("application", .jstr (appNameOf app)), ("context", context)]) with
    | ok r =>
      rw [hinv] at h
      simp at h
    | error e2 =>
      rw [hinv] at h
      left
      cases h
      rfl

/-- Witness for `open_failure_messages`: a failing start invocation surfaces
the application-specific default message. -/
theorem open_failure_messages_witness :
    "Unable to start application named \"app\"" = defaultErrorMessage (appNameOf "app") ∨
    (∃ e, (getPlatform [c5wP] (appNameOf "app") (getPlatformName "app")
        (defaultErrorMessage (appNameOf "app"))).1 = .error e ∧
      "Unable to start application named \"app\"" = e) ∨
    ((getPlatform [c5wP] (appNameOf "app") (getPlatformName "app")
        (defaultErrorMessage (appNameOf "app"))).1 = .ok none ∧
      "Unable to start application named \"app\"" = undefinedPlatformMsg) :=
  open_failure_messages [c5wP] "app" .undefined "Unable to start application named \"app\"" rfl

/-- A fold that conditionally consumes elements equals the fold of the
filtered, mapped list. -/
theorem foldl_ite_filter_map {α β γ : Type} (cond : α → Bool) (f : α → β) (g : γ → β → γ) :
    ∀ (l : List α) (init : γ),
      l.foldl (fun acc x => if cond x then g acc (f x) else acc) init =
        ((l.filter cond).map f).foldl g init
  | [], _ => rfl
  | x :: l, init => by
    cases hc : cond x <;>
      simp [List.filter_cons, hc, foldl_ite_filter_map cond f g l]

/-- One method's step in `findIntentsByContext` is the `pushApp` fold over
the method's matching (intent name, application) pairs. -/
theorem fibcStep_eq (context : JVal) (acc : List AppIntent) (m : Method) :
    fibcStep context acc m =
      (contextMatchPairs context m).foldl (fun a x => pushApp a x.1 x.2) acc := by
  obtain ⟨mn, mis, mp⟩ := m
  cases mis with
  | nil => rfl
  | cons mi0 mis2 =>
    simp only [fibcStep, contextMatchPairs]
    rw [if_pos (by simp)]
    exact foldl_ite_filter_map (fun mi => stringify mi.context == stringify context)
      (fun mi => (mi.name, mp.applicationName)) (fun a x => pushApp a x.1 x.2) (mi0 :: mis2) acc

/-- Folding `fibcStep` over a method list is the `pushApp` fold over the
flattened match pairs. -/
theorem foldl_fibc_flat (context : JVal) :
    ∀ (msl : List Method) (acc : List AppIntent),
      msl.foldl (fibcStep context) acc =
        (msl.flatMap (contextMatchPairs context)).foldl (fun a x => pushApp a x.1 x.2) acc
  | [], _ => rfl
  | m :: msl, acc => by
    simp only [List.foldl_cons, List.flatMap_cons, List.foldl_append]
    rw [fibcStep_eq]
    exact foldl_fibc_flat context msl _

/-- The platform loop of `findIntentsByContext` on all-successful discoveries
is the `pushApp` fold over all platforms' match pairs in platform order. -/
theorem fibcLoop_ok (context : JVal) (ms : Platform → List Method) :
    ∀ (ps : List Platform) (acc : List AppIntent),
      (∀ p ∈ ps, p.platformApi.discoverMethods = .ok (ms p)) →
      (findIntentsByContextLoop context ps acc).1 =
        .ok ((ps.flatMap (fun p => (ms p).flatMap (contextMatchPairs context))).foldl
          (fun a x => pushApp a x.1 x.2) acc)
  | [], acc, _ => rfl
  | p :: rest, acc, h => by
    have hp := h p (by simp)
    simp only [findIntentsByContextLoop, hp]
    rcases hrec : findIntentsByContextLoop context rest ((ms p).foldl (fibcStep context) acc)
      with ⟨r, tr⟩
    have hr := fibcLoop_ok context ms rest ((ms p).foldl (fibcStep context) acc)
      (fun q hq => h q (by simp [hq]))
    rw [hrec] at hr
    simp only at hr
    simp [hrec, hr, foldl_fibc_flat, List.foldl_append]

/-- `pushApp` on an accumulator of distinct named entries: append the app to
the entry of the matching name, or add a fresh entry at the end. -/
theorem pushApp_mapForm (i a : String) :
    ∀ (N : List String) (f : String → List AppMetadata), N.Nodup →
      pushApp (N.map (fun n => ⟨⟨n, n⟩, f n⟩)) i a =
        (if i ∈ N then
          N.map (fun n => ⟨⟨n, n⟩, f n ++ if n = i then [⟨a⟩] else []⟩)
        else N.map (fun n => ⟨⟨n, n⟩, f n⟩) ++ [⟨⟨i, i⟩, [⟨a⟩]⟩])
  | [], f, _ => by simp [pushApp]
  | n :: N, f, hnd => by
    rw [List.nodup_cons] at hnd
    by_cases hni : n = i
    · subst hni
      have hhead : pushApp ((⟨⟨n, n⟩, f n⟩ : AppIntent) :: N.map (fun m => ⟨⟨m, m⟩, f m⟩)) n a =
          ⟨⟨n, n⟩, f n ++ [⟨a⟩]⟩ :: N.map (fun m => ⟨⟨m, m⟩, f m⟩) := by
        simp [pushApp]
      rw [List.map_cons, hhead, if_pos (List.mem_cons_self n N), List.map_cons]
      congr 1
      · simp
      · apply List.map_congr_left
        intro m hm
        have hmn : ¬ m = n := fun hEq => hnd.1 (hEq ▸ hm)
        simp [hmn]
    · have hbe : (n == i) = false := by simp [hni]
      simp only [List.map_cons, pushApp, hbe, Bool.false_eq_true, if_false]
      rw [pushApp_mapForm i a N f hnd.2]
      by_cases hiN : i ∈ N
      · rw [if_pos hiN, if_pos (List.mem_cons_of_mem n hiN)]
        simp [hni]
      · have hiNn : i ∉ n :: N := by
          intro hmem
          rcases List.mem_cons.mp hmem with hEq | hmem2
          exacts [hni hEq.symm, hiN hmem2]
        rw [if_neg hiN, if_neg hiNn]
        rfl

/-- Folding `pushApp` from an accumulator of distinct named entries yields
the first-seen grouping. -/
theorem foldl_pushApp_mapForm :
    ∀ (l : List (String × String)) (N : List String) (f : String → List AppMetadata),
      N.Nodup → (∀ n, n ∉ N → f n = []) →
      l.foldl (fun acc x => pushApp acc x.1 x.2) (N.map (fun n => ⟨⟨n, n⟩, f n⟩)) =
        (firstSeenAux N (l.map Prod.fst)).map
          (fun n => ⟨⟨n, n⟩, f n ++ (l.filter (fun x => x.1 == n)).map (fun x => ⟨x.2⟩)⟩) := by
  intro l
  induction l with
  | nil =>
    intro N f hnd hf
    simp only [List.foldl_nil, firstSeenAux, List.map_nil, List.filter_nil, List.append_nil]
  | cons x l ih =>
    obtain ⟨i, b⟩ := x
    intro N f hnd hf
    simp only [List.foldl_cons]
    rw [pushApp_mapForm i b N f hnd]
    by_cases hiN : i ∈ N
    · rw [if_pos hiN]
      refine Eq.trans (ih N (fun n => f n ++ if n = i then [⟨b⟩] else []) hnd
        (fun n hn => by
          have hni : ¬ n = i := fun hEq => hn (by rw [hEq]; exact hiN)
          simp [hni, hf n hn])) ?_
      have hnames : firstSeenAux N (((i, b) :: l).map Prod.fst) =
          firstSeenAux N (l.map Prod.fst) := by
        simp [firstSeenAux, seenStep, hiN]
      rw [hnames]
      apply List.map_congr_left
      intro n hn
      by_cases hni : n = i
      · subst hni
        simp [List.filter_cons, List.append_assoc]
      · have hbe : (i == n) = false := beq_eq_false_iff_ne.mpr (fun hEq => hni hEq.symm)
        simp [List.filter_cons, hbe, hni]
    · rw [if_neg hiN]
      have hacc : N.map (fun n => (⟨⟨n, n⟩, f n⟩ : AppIntent)) ++ [⟨⟨i, i⟩, [⟨b⟩]⟩] =
          (N ++ [i]).map (fun n => ⟨⟨n, n⟩, if n = i then [⟨b⟩] else f n⟩) := by
        rw [List.map_append]
        congr 1
        · apply List.map_congr_left
          intro n hn
          have hni : ¬ n = i := fun hEq => hiN (hEq ▸ hn)
          simp [hni]
        · simp
      rw [hacc]
      have hnd2 : (N ++ [i]).Nodup := by
        simp [List.nodup_append, hnd, hiN]
      refine Eq.trans (ih (N ++ [i]) (fun n => if n = i then [⟨b⟩] else f n) hnd2
        (fun n hn => by
          have hni : ¬ n = i := by
            intro hEq
            exact hn (by simp [hEq])
          have hnN : n ∉ N := fun hmem => hn (List.mem_append_left [i] hmem)
          simp [hni, hf n hnN])) ?_
      have hnames : firstSeenAux N (((i, b) :: l).map Prod.fst) =
          firstSeenAux (N ++ [i]) (l.map Prod.fst) := by
        simp [firstSeenAux, seenStep, hiN]
      rw [hnames]
      apply List.map_congr_left
      intro n hn
      by_cases hni : n = i
      · subst hni
        simp [List.filter_cons, hf n hiN]
      · have hbe : (i == n) = false := beq_eq_false_iff_ne.mpr (fun hEq => hni hEq.symm)
        simp [List.filter_cons, hbe, hni]

/-- **C6.** `findIntentsByContext` groups its matches by intent name in
first-seen order across the platform iteration: one `AppIntent` per distinct
matching intent name, whose `apps` list holds every matching application in
match order (appended when a name repeats, a fresh entry otherwise). -/
theorem findIntentsByContext_groups (context : JVal) (ps : List Platform)
    (ms : Platform → List Method)
    (h : ∀ p ∈ ps, p.platformApi.discoverMethods = .ok (ms p)) :
    (findIntentsByContext context ps).1 =
      .ok (groupedAppIntents
        (ps.flatMap (fun p => (ms p).flatMap (contextMatchPairs context)))) := by
  have hloop := fibcLoop_ok context ms ps [] h
  have hmain := foldl_pushApp_mapForm
    (ps.flatMap (fun p => (ms p).flatMap (contextMatchPairs context))) [] (fun _ => [])
    (by simp) (by simp)
  simp only [List.map_nil, List.nil_append] at hmain
  show (findIntentsByContextLoop context ps []).1 =
    .ok (groupedAppIntents (ps.flatMap (fun p => (ms p).flatMap (contextMatchPairs context))))
  rw [hloop, hmain]
  simp [groupedAppIntents, firstSeen]

/-- Witness for `findIntentsByContext_groups`: the claim's own example —
platform A offers `Call`, platform B offers `Call` and `Chat`, all for the
same context: exactly two entries result, `Call` with both apps and `Chat`
with one. -/
theorem findIntentsByContext_groups_witness :
    (findIntentsByContext c6Ctx [c6PA, c6PB]).1 =
      .ok [⟨⟨"Call", "Call"⟩, [⟨"AppA"⟩, ⟨"AppB"⟩]⟩, ⟨⟨"Chat", "Chat"⟩, [⟨"AppB"⟩]⟩] :=
  (findIntentsByContext_groups c6Ctx [c6PA, c6PB]
    (fun p => if p.name == "PA" then [c6MA] else [c6MB])
    (by
      intro p hp
      simp only [List.mem_cons, List.not_mem_nil, or_false] at hp
      rcases hp with h | h <;> subst h <;> rfl)).trans rfl

end Fdc3
